import Mathlib

/-!
Verification development for the Auraverse storage core
(`src/storage/schema_analyzer.py`, `src/storage/sql_store.py`,
`src/storage/doc_store.py`, `src/rag/query_router.py`,
`src/rag/retriever.py`, `src/models/registry.py`).

The Python code is shallowly embedded:

* JSON-like values become the inductive type `Val`.
* Python `dict` (string keys, insertion order, assignment keeps the
  original position of an existing key) becomes association lists with
  the update operation `upd`.
* Python `float` arithmetic is modelled exactly by unreduced integer
  fractions (`Frac`); float rounding is not modelled, so comparisons at
  a threshold are exact-arithmetic idealisations of the float ones.
* Code that can raise becomes `Except PyErr` / an error component; the
  constructors of `PyErr` name the Python exception classes that the
  embedded code can actually raise, plus the two error kinds named by
  the specification (`validationError`, `storageError`) so that their
  absence from the code's behaviour can be stated.
-/

/-- The error kinds relevant to the embedded code.  `attributeError`,
`keyError`, `interfaceError` and `compileError` model the Python /
SQLAlchemy exceptions the embedded functions can raise.
`argumentError` models the SQLAlchemy error raised while constructing
a `Table` whose column names collide (re-defining the primary-key
column `id` raises `ArgumentError` in every SQLAlchemy version, and a
duplicate column name raises `DuplicateColumnError` in current
versions).  `validationError` and `storageError` are modelled from the spec: the
spec's error taxonomy names ValidationError (empty batch, non-object
element) and StorageError (naming the failing document's index), but no
code under `src/` defines or raises either; they are included so the
spec's claims about them can be stated and settled. -/
inductive PyErr where
  | attributeError
  | keyError
  | interfaceError
  | compileError
  | argumentError
  | validationError
  | storageError (docIndex : Nat)
deriving DecidableEq

/-- `isStorageError e` holds exactly for the spec's StorageError kind. -/
def isStorageError : PyErr → Bool
  | .storageError _ => true
  | _ => false

/-- Exact fractions `num / den`, not reduced to lowest terms; the
embedding of the Python `float` values computed by the analyzer.  All
denominators produced by the embedded code are positive. -/
structure Frac where
  num : Int
  den : Nat
deriving DecidableEq

/-- `a - b` on fractions (cross multiplication). -/
def Frac.sub (a b : Frac) : Frac := ⟨a.num * b.den - b.num * a.den, a.den * b.den⟩

/-- `a + b` on fractions (cross multiplication). -/
def Frac.add (a b : Frac) : Frac := ⟨a.num * b.den + b.num * a.den, a.den * b.den⟩

/-- `a / n` for a natural denominator. -/
def Frac.divNat (a : Frac) (n : Nat) : Frac := ⟨a.num, a.den * n⟩

/-- The comparison `a >= b` used by the Python code, as cross
multiplication; it agrees with the rational order whenever both
denominators are positive (`Frac.ge_iff_toRat`). -/
def Frac.ge (a b : Frac) : Bool := b.num * a.den ≤ a.num * b.den

/-- The rational value of a fraction. -/
def Frac.toRat (a : Frac) : ℚ := (a.num : ℚ) / (a.den : ℚ)

/-- `sum(...)` over fraction values (Python starts the sum at `0`). -/
def Frac.sumList (l : List Frac) : Frac := l.foldl Frac.add ⟨0, 1⟩

/-- The JSON-like value type all components operate on: the shallow
embedding of the Python values (`None`, `bool`, `int`, `float`, `str`,
`list`, `dict`).  Python dicts are association lists in insertion
order. -/
inductive Val where
  | null
  | bool (b : Bool)
  | int (n : Int)
  | float (f : Frac)
  | str (s : String)
  | arr (l : List Val)
  | obj (fields : List (String × Val))

/-- An association list with string keys, embedding a Python `dict`:
keys are unique, iteration order is insertion order. -/
abbrev PyDict (α : Type) := List (String × α)

/-- Python dict lookup: the value at `k`, when present (keys are
unique, so the first binding is the binding). -/
def lookupPy {α : Type} : PyDict α → String → Option α
  | [], _ => none
  | (a, b) :: rest, k => if a = k then some b else lookupPy rest k

/-- Python dict assignment `m[k] = v`: if `k` is present its value is
replaced in place (keeping the key's original position), otherwise the
pair is appended. -/
def upd {α : Type} : PyDict α → String → α → PyDict α
  | [], k, v => [(k, v)]
  | (a, b) :: rest, k, v =>
    if a == k then (k, v) :: rest else (a, b) :: upd rest k v

/-- Python `m.update(m')`: assign every pair of `m'` into `m` in
order. -/
def updAll {α : Type} (m m' : PyDict α) : PyDict α :=
  m'.foldl (fun acc kv => upd acc kv.1 kv.2) m

/-- Python `k in m` on a dict. -/
def hasKey {α : Type} (m : PyDict α) (k : String) : Bool :=
  m.any (fun kv => kv.1 == k)

/-- Python `m.get(k)` with default `None` for the value type `Val`. -/
def pyGetD (m : PyDict Val) (k : String) : Val :=
  (lookupPy m k).getD .null

/-- Python `m.get(k, d)` for an arbitrary value type. -/
def getD {α : Type} (m : PyDict α) (k : String) (d : α) : α :=
  (lookupPy m k).getD d

/-! ### Character-level string helpers

The Lean core string functions are not used because the embedding must
evaluate inside the kernel; these structural versions implement the
Python `str` operations the source uses. -/

/-- Python `s.endswith(suf)`. -/
def strEndsWith (s suf : String) : Bool :=
  s.data.reverse.take suf.data.length == suf.data.reverse

/-- Python `c in s` for a single character (the only `in` the source
uses on strings is the one-character separator `.`). -/
def strContainsChar (s : String) (c : Char) : Bool :=
  s.data.any (fun d => d == c)

/-- Scanner for `strReplace`: replaces non-overlapping occurrences of
`pat` left to right; `fuel` bounds the scan and is always called with
the length of the remaining text (the patterns used by the source are
nonempty, so each step consumes at least one character). -/
def replaceGo (pat rep : List Char) : Nat → List Char → List Char
  | _, [] => []
  | 0, l => l
  | n + 1, c :: cs =>
    if pat ≠ [] ∧ (c :: cs).take pat.length = pat then
      rep ++ replaceGo pat rep n ((c :: cs).drop pat.length)
    else
      c :: replaceGo pat rep n cs

/-- Python `s.replace(pat, rep)`. -/
def strReplace (pat rep s : String) : String :=
  ⟨replaceGo pat.data rep.data s.data.length s.data⟩

/-- Splitter for `strSplitDot` over the character list. -/
def splitDotGo : List Char → List (List Char)
  | [] => [[]]
  | c :: cs =>
    match splitDotGo cs with
    | [] => [[c]]
    | g :: gs => if c == '.' then [] :: g :: gs else (c :: g) :: gs

/-- Python `s.split(".")`. -/
def strSplitDot (s : String) : List String :=
  (splitDotGo s.data).map String.mk

/-! ### `src/storage/schema_analyzer.py` -/

/-- `_type_name` from `schema_analyzer.py`.  The `"unknown"` fallback is
unreachable for `Val`, which covers exactly the JSON-like values. -/
def type_name : Val → String
  | .null => "null"
  | .bool _ => "bool"
  | .int _ => "int"
  | .float _ => "float"
  | .str _ => "str"
  | .arr _ => "list"
  | .obj _ => "obj"

/-- The path of key `k` under `parent`: `f"{parent}.{k}" if parent else k`. -/
def joinPath (parent k : String) : String :=
  if parent = "" then k else parent ++ "." ++ k

mutual
/-- The `for k, v in d.items()` loop of `flatten_paths`, threading the
`paths` dict being built: each entry first records `paths[p] =
_type_name(v)` and then lets `flattenEntry` add the recursive
contributions. -/
def flattenLoop : List (String × Val) → String → PyDict String → PyDict String
  | [], _, paths => paths
  | (k, v) :: rest, parent, paths =>
    flattenLoop rest parent
      (flattenEntry v (joinPath parent k) (upd paths (joinPath parent k) (type_name v)))

/-- The recursive part of one `flatten_paths` loop iteration: recurse
into a dict value, and for a nonempty list value whose first element is
a dict record the relation root `p + "[]"` and recurse into that first
element only. -/
def flattenEntry : Val → String → PyDict String → PyDict String
  | .obj fs, p, paths => updAll paths (flattenLoop fs p [])
  | .arr (.obj hfs :: _), p, paths =>
    updAll (upd paths (p ++ "[]") "obj_list") (flattenLoop hfs (p ++ "[]") [])
  | _, _, paths => paths
end

/-- `flatten_paths` from `schema_analyzer.py`: walks one document (a
dict), producing the `path -> observed type` dict, recursing into
nested dicts, and treating a nonempty list whose first element is a
dict as a relation root (`path + "[]"`, sampling only that first
element for shape). -/
def flatten_paths (d : List (String × Val)) (parent : String) : PyDict String :=
  flattenLoop d parent []

/-- Per-path count-by-type histograms over a batch
(`path_types = defaultdict(Counter)`). -/
abbrev PathTypes := PyDict (PyDict Nat)

/-- `Counter` increment: `counter[t] += 1`. -/
def bumpCounter (c : PyDict Nat) (t : String) : PyDict Nat :=
  if c.any (fun kv => kv.1 == t) then
    c.map (fun kv => if kv.1 == t then (kv.1, kv.2 + 1) else kv)
  else
    c ++ [(t, 1)]

/-- `path_types[p][t] += 1` with the defaultdict behaviour. -/
def addPathType (pt : PathTypes) (p t : String) : PathTypes :=
  if pt.any (fun kv => kv.1 == p) then
    pt.map (fun kv => if kv.1 == p then (kv.1, bumpCounter kv.2 t) else kv)
  else
    pt ++ [(p, bumpCounter [] t)]

/-- The `for doc in docs` aggregation loop of `analyze_batch`.  A
document that is not a dict makes `flatten_paths(doc)` call `.items()`
on a non-dict, which raises `AttributeError`. -/
def collectPaths : List Val → PathTypes → Except PyErr PathTypes
  | [], acc => .ok acc
  | d :: rest, acc =>
    match d with
    | .obj fs =>
      collectPaths rest ((flatten_paths fs "").foldl (fun a kv => addPathType a kv.1 kv.2) acc)
    | _ => .error .attributeError

/-- `sum(c.values())` for one path's counter. -/
def counterTotal (c : PyDict Nat) : Nat := (c.map (fun kv => kv.2)).sum

/-- `x or 1` for the integer denominators of `analyze_batch`. -/
def orOne (n : Nat) : Nat := if n = 0 then 1 else n

/-- The analysis result returned by `analyze_batch`. -/
structure Analysis where
  decision : String
  common_paths : List String
  optionality : PyDict Frac
  type_variability : PyDict Nat
  relations : List String
  path_types : PathTypes
  stability_score : Frac
deriving DecidableEq

/-- `analyze_batch` from `schema_analyzer.py`.  The set comprehension
for `common_paths` is modelled as a filtered list in `path_types`
order (dict keys are unique, so it is duplicate-free).  The code
performs no input validation: the empty batch flows through (every
aggregate is empty and every denominator is guarded by `or 1`), and a
non-dict element raises `AttributeError`. -/
def analyze_batch (docs : List Val) : Except PyErr Analysis :=
  match collectPaths docs [] with
  | .error e => .error e
  | .ok path_types =>
    let total := docs.length
    let common_paths :=
      (path_types.filter (fun kv => Frac.ge ⟨counterTotal kv.2, total⟩ ⟨8, 10⟩)).map
        (fun kv => kv.1)
    let optionality :=
      path_types.map (fun kv => (kv.1, Frac.sub ⟨1, 1⟩ ⟨counterTotal kv.2, total⟩))
    let type_variability := path_types.map (fun kv => (kv.1, kv.2.length))
    let relations := (path_types.map (fun kv => kv.1)).filter (fun p => strEndsWith p "[]")
    let stability_score :=
      Frac.sub
        (Frac.sub ⟨common_paths.length, orOne path_types.length⟩
          ⟨((type_variability.map (fun kv => kv.2)).sum : Int), 10 * orOne path_types.length⟩)
        (Frac.divNat (Frac.sumList (optionality.map (fun kv => kv.2)))
          (orOne optionality.length))
    let decision :=
      if Frac.ge stability_score ⟨3, 20⟩ || relations.length > 0 then "SQL" else "DOC"
    .ok
      { decision := decision
        common_paths := common_paths
        optionality := optionality
        type_variability := type_variability
        relations := relations
        path_types := path_types
        stability_score := stability_score }

/-- One child-table spec of a proposed relational model. -/
structure ChildTable where
  name : String
  root_path : String
deriving DecidableEq

/-- A proposed relational model. -/
structure RelModel where
  top_table : String
  top_cols : List String
  child_tables : List ChildTable
deriving DecidableEq

/-- One iteration of the `propose_sql_model` loop over
`path_types.items()`: a path whose counter contains `"obj_list"`
becomes a child table, and otherwise a path without a `.` separator
and not ending in `"[]"` is collected as a top-level column. -/
def proposeStep (acc : List String × List ChildTable) (kv : String × PyDict Nat) :
    List String × List ChildTable :=
  if hasKey kv.2 "obj_list" then
    (acc.1, acc.2 ++ [⟨strReplace "." "_" (strReplace "[]" "" kv.1), strReplace "[]" "" kv.1⟩])
  else if !strContainsChar kv.1 '.' && !strEndsWith kv.1 "[]" then
    (acc.1 ++ [kv.1], acc.2)
  else
    acc

/-- `propose_sql_model` from `schema_analyzer.py`. -/
def propose_sql_model (analysis : Analysis) : RelModel :=
  let tc := analysis.path_types.foldl proposeStep ([], [])
  { top_table := "items"
    top_cols := tc.1.map (strReplace "." "_")
    child_tables := tc.2 }

/-! ### `src/storage/sql_store.py` -/

/-- SQLAlchemy column types used by `sql_store.py`. -/
inductive ColTy where
  | integer
  | floatCol
  | boolean
  | text
  | json
deriving DecidableEq

/-- `map_type` from `sql_store.py` (Null → Text, Bool → Boolean,
Int → Integer, Float → Float, strings or mixed → Text; the Python
`isinstance(v, bool)` test precedes the `int` test). -/
def map_type : Val → ColTy
  | .null => .text
  | .bool _ => .boolean
  | .int _ => .integer
  | .float _ => .floatCol
  | _ => .text

/-- A physical table: column types, the AUTOINCREMENT counter, and the
rows (each row a dict from column name to value, with the generated
`id` included). -/
structure Table where
  cols : PyDict ColTy
  nextId : Nat
  rows : List (PyDict Val)

/-- The state of the relational store: `meta.tables` together with the
physical tables, kept consistent (§9 of the spec leaves conflicting
re-definitions as an open question; no claim exercises them). -/
abbrev SQLTables := PyDict Table

/-- (Re)definition of one table by `ensure_schema`: a new table starts
empty with `id` counter 1; `create_all` leaves an existing table's rows
and counter untouched (`extend_existing=True` updates the metadata). -/
def defineTable (tbls : SQLTables) (name : String) (cols : PyDict ColTy) : SQLTables :=
  match lookupPy tbls name with
  | some t => upd tbls name ⟨cols, t.nextId, t.rows⟩
  | none => upd tbls name ⟨cols, 1, []⟩

/-- The path walk shared by `_get_by_path` and `_extract_first`:
`cur = cur.get(p)` while `cur` is a dict, otherwise return `None`
(`none`); a missing key yields Python `None`, embedded as `.null`,
which every caller treats the same way as `none`. -/
def walkParts : List String → Val → Option Val
  | [], cur => some cur
  | p :: ps, cur =>
    match cur with
    | .obj fs => walkParts ps (pyGetD fs p)
    | _ => none

/-- `SQLStore._get_by_path`. -/
def get_by_path (doc : Val) (path : String) : Option Val :=
  walkParts (strSplitDot path) doc

/-- `SQLStore._extract_first`: the first element of the list at
`root_path`, when that list is nonempty and its first element is a
dict. -/
def extract_first (root_path : String) (doc : Val) : Option (List (String × Val)) :=
  match get_by_path doc root_path with
  | some (.arr (.obj hfs :: _)) => some hfs
  | _ => none

/-- Whether a column-name list contains a repeated name.  Constructing
a `Table` with such a list raises: re-defining the primary-key column
`id` is an `ArgumentError` in every SQLAlchemy version, and a repeated
column name is a `DuplicateColumnError` in current versions; both are
modelled by `argumentError`. -/
def hasDupNames : List String → Bool
  | [] => false
  | n :: rest => rest.any (fun m => m == n) || hasDupNames rest

/-- The `for child in model["child_tables"]` table-construction loop of
`ensure_schema`: each child table gets `id`, `parent_id`, columns from
the first element of the referenced array in the sample (none if
absent), and `_raw`; a name collision raises at `Table`
construction. -/
def ensureChildren (sample : List (String × Val)) :
    List ChildTable → SQLTables → Except PyErr SQLTables
  | [], ts => .ok ts
  | child :: rest, ts =>
    let childSample := (extract_first child.root_path (.obj sample)).getD []
    let cs : PyDict ColTy :=
      [("id", .integer), ("parent_id", .integer)]
        ++ childSample.map (fun kv => (strReplace "." "_" kv.1, map_type kv.2))
        ++ [("_raw", .json)]
    if hasDupNames (cs.map (fun kv => kv.1)) then .error .argumentError
    else ensureChildren sample rest (defineTable ts child.name cs)

/-- `SQLStore.ensure_schema`: the top table gets an `id` column, one
column per proposed top column typed from the sample document, and the
JSON `_raw` column, then the child tables are constructed; a column
name repeated within one table (for example a proposed top column
named `id`) makes the `Table` constructor raise, before `create_all`
has created anything, so on error no table is (re)defined.  The
secondary-index creation of the source swallows every failure
(`except Exception: pass`) and leaves no observable state in this
model, so it is omitted. -/
def ensure_schema (tbls : SQLTables) (model : RelModel) (sample : List (String × Val)) :
    Except PyErr SQLTables :=
  let topCols : PyDict ColTy :=
    [("id", .integer)] ++ model.top_cols.map (fun c => (c, map_type (pyGetD sample c)))
      ++ [("_raw", .json)]
  if hasDupNames (topCols.map (fun kv => kv.1)) then .error .argumentError
  else ensureChildren sample model.child_tables (defineTable tbls model.top_table topCols)

/-- Whether the sqlite driver can bind `v` to a column of type `t`:
JSON columns serialize any JSON-like value; other columns reject lists
and dicts (`InterfaceError`).  Other backend failures (I/O, connection
loss) are outside the model. -/
def bindOK : ColTy → Val → Bool
  | .json, _ => true
  | _, .arr _ => false
  | _, .obj _ => false
  | _, _ => true

/-- `session.execute(table.insert().values(**row))`: fails with
`KeyError` when the table is unknown, `CompileError` when a value key
is not a column of the table, `InterfaceError` when a value cannot be
bound; otherwise appends the row with the generated `id` and returns
that id (`inserted_primary_key[0]`). -/
def execIns (tbls : SQLTables) (tname : String) (row : PyDict Val) :
    Except PyErr (SQLTables × Nat) :=
  match lookupPy tbls tname with
  | none => .error .keyError
  | some t =>
    if row.all (fun kv => hasKey t.cols kv.1) then
      if row.all (fun kv => bindOK (getD t.cols kv.1 .text) kv.2) then
        .ok (upd tbls tname ⟨t.cols, t.nextId + 1, t.rows ++ [("id", Val.int t.nextId) :: row]⟩,
          t.nextId)
      else .error .interfaceError
    else .error .compileError

/-- The top-row construction of `SQLStore.insert`: `row[c] = doc.get(c)`
for each proposed column (raising `AttributeError` when `doc` is not a
dict and a column is fetched), then `row["_raw"] = doc`. -/
def buildTopRowCols (doc : Val) : List String → PyDict Val → Except PyErr (PyDict Val)
  | [], row => .ok row
  | c :: cs, row =>
    match doc with
    | .obj fs => buildTopRowCols doc cs (upd row c (pyGetD fs c))
    | _ => .error .attributeError

/-- The top-row construction of `SQLStore.insert`, finished:
`row["_raw"] = doc` after the column loop. -/
def buildTopRow (model : RelModel) (doc : Val) : Except PyErr (PyDict Val) :=
  match buildTopRowCols doc model.top_cols [] with
  | .ok row => .ok (upd row "_raw" doc)
  | .error e => .error e

/-- The child-row construction of `SQLStore.insert`:
`crow = {"parent_id": pid, "_raw": item}` followed by
`crow[k.replace(".", "_")] = v` for each item field (so an item field
whose key maps to `"_raw"` or `"parent_id"` overwrites those entries);
`item.items()` raises `AttributeError` when the element is not a
dict. -/
def childRow (pid : Nat) (item : Val) : Except PyErr (PyDict Val) :=
  match item with
  | .obj ifs =>
    .ok (ifs.foldl (fun r kv => upd r (strReplace "." "_" kv.1) kv.2)
      (upd (upd [] "parent_id" (.int pid)) "_raw" item))
  | _ => .error .attributeError

/-- The `for item in data_list` loop of `SQLStore.insert`. -/
def insertItems : SQLTables → String → Nat → List Val → Except PyErr SQLTables
  | tbls, _, _, [] => .ok tbls
  | tbls, cname, pid, item :: rest =>
    match childRow pid item with
    | .error e => .error e
    | .ok crow =>
      match execIns tbls cname crow with
      | .error e => .error e
      | .ok (tbls2, _) => insertItems tbls2 cname pid rest

/-- The `for child in model["child_tables"]` loop of `SQLStore.insert`:
the child table is looked up first (`KeyError` when absent), then the
nested array is resolved by `_get_by_path` and one child row is
inserted per element; a value that is not a list is skipped. -/
def insertChildren : SQLTables → Val → Nat → List ChildTable → Except PyErr SQLTables
  | tbls, _, _, [] => .ok tbls
  | tbls, doc, pid, ct :: rest =>
    match lookupPy tbls ct.name with
    | none => .error .keyError
    | some _ =>
      match get_by_path doc ct.root_path with
      | some (.arr items) =>
        match insertItems tbls ct.name pid items with
        | .error e => .error e
        | .ok tbls2 => insertChildren tbls2 doc pid rest
      | _ => insertChildren tbls doc pid rest

/-- One document of `SQLStore.insert`: top row, captured parent id,
then the child rows. -/
def insertDoc (tbls : SQLTables) (model : RelModel) (doc : Val) : Except PyErr SQLTables :=
  match buildTopRow model doc with
  | .error e => .error e
  | .ok row =>
    match execIns tbls model.top_table row with
    | .error e => .error e
    | .ok (tbls1, pid) => insertChildren tbls1 doc pid model.child_tables

/-- The `for doc in docs` loop of `SQLStore.insert`. -/
def insertDocs : SQLTables → RelModel → List Val → Except PyErr SQLTables
  | tbls, _, [] => .ok tbls
  | tbls, model, d :: rest =>
    match insertDoc tbls model d with
    | .error e => .error e
    | .ok tbls1 => insertDocs tbls1 model rest

/-- `SQLStore.insert`: the top table is looked up before the session is
opened (`KeyError` propagates with the store untouched); the whole loop
runs in one session, committed only at the end, and any exception
triggers `session.rollback()` and re-raises the original exception
unchanged — the returned state is the state before the call, and the
error is whatever the failing operation raised. -/
def SQLStore.insert (tbls : SQLTables) (model : RelModel) (docs : List Val) :
    SQLTables × Option PyErr :=
  match lookupPy tbls model.top_table with
  | none => (tbls, some .keyError)
  | some _ =>
    match insertDocs tbls model docs with
    | .ok tbls' => (tbls', none)
    | .error e => (tbls, some e)

/-! ### `src/storage/doc_store.py` -/

/-- `str(v)` for the scalar values the document store indexes.  The
text of a float is not modelled faithfully (it is rendered as the
fraction); the claims never inspect it. -/
def pyStrScalar : Val → String
  | .bool true => "True"
  | .bool false => "False"
  | .int n => toString n
  | .float f => toString f.num ++ "/" ++ toString f.den
  | .str s => s
  | _ => ""

/-- Python `isinstance(v, (str, int, float))`: booleans are included
because `bool` subclasses `int`. -/
def isIndexedScalar : Val → Bool
  | .str _ => true
  | .int _ => true
  | .float _ => true
  | .bool _ => true
  | _ => false

/-- The document-store state: the AUTOINCREMENT counter, the
`documents` table (id, namespace, payload — `raw_json` stores
`json(doc)`, whose serialization round-trips, so the payload is kept as
the value), and the `key_index` table (doc id, key, stringified
value). -/
structure DocState where
  nextId : Nat
  documents : List (Nat × String × Val)
  key_index : List (Nat × String × String)

/-- The `for k, v in doc.items()` index loop of `DocStore.insert`. -/
def indexDoc (st : DocState) (docId : Nat) (fs : List (String × Val)) : DocState :=
  fs.foldl
    (fun s kv =>
      if isIndexedScalar kv.2 then
        ⟨s.nextId, s.documents, s.key_index ++ [(docId, kv.1, pyStrScalar kv.2)]⟩
      else s)
    st

/-- The `for doc in docs` loop of `DocStore.insert`, on the working
(uncommitted) transaction state: the document row is executed first,
then the scalar fields are indexed; `doc.items()` on a non-dict raises
`AttributeError` after the document row was already executed, ending
the loop. -/
def docInsertLoop (st : DocState) (ns : String) : List Val → DocState × Option PyErr
  | [] => (st, none)
  | d :: rest =>
    let docId := st.nextId
    let st1 : DocState := ⟨docId + 1, st.documents ++ [(docId, ns, d)], st.key_index⟩
    match d with
    | .obj fs => docInsertLoop (indexDoc st1 docId fs) ns rest
    | _ => (st1, some .attributeError)

/-- Outcome of `DocStore.insert`: the durable (committed) state, the
state of the sqlite connection's transaction, and the propagated
exception, if any. -/
structure DocInsertResult where
  committed : DocState
  txn : DocState
  err : Option PyErr

/-- `DocStore.insert`: the sqlite connection runs the INSERTs of the
whole call in one implicit transaction and `conn.commit()` runs only
after the loop.  On success everything is committed at once; an
exception mid-loop propagates with no commit and no rollback, so the
durable state is unchanged and the pending writes stay in the open
transaction. -/
def DocStore.insert (db : DocState) (docs : List Val) (ns : String) : DocInsertResult :=
  match docInsertLoop db ns docs with
  | (w, none) => ⟨w, w, none⟩
  | (w, some e) => ⟨db, w, some e⟩

/-! ### `src/models/registry.py` -/

/-- `SchemaRegistry`: current schemas (a dict, so upsert keeps the
original position of a re-registered name) and the append-only history.
`time.time()` is an input of `register` here (`ts`). -/
structure SchemaRegistry where
  schemas : PyDict (PyDict Val)
  snapshots : List (Frac × String × PyDict Val × String)

/-- `SchemaRegistry.register`. -/
def SchemaRegistry.register (r : SchemaRegistry) (ts : Frac) (name : String)
    (schema : PyDict Val) (notes : String) : SchemaRegistry :=
  ⟨upd r.schemas name schema, r.snapshots ++ [(ts, name, schema, notes)]⟩

/-- `SchemaRegistry.get`: the schema, or `none` for an absent name. -/
def SchemaRegistry.get (r : SchemaRegistry) (name : String) : Option (PyDict Val) :=
  lookupPy r.schemas name

/-- `SchemaRegistry.history`. -/
def SchemaRegistry.history (r : SchemaRegistry) (name : String) :
    List (Frac × String × PyDict Val × String) :=
  r.snapshots.filter (fun s => s.2.1 == name)

/-! ### `src/rag/query_router.py` -/

/-- A structured query request (§3 of the spec): `query.get("target")`
and the other keys of the request dict. -/
structure QueryRequest where
  target : String
  filters : PyDict Val
  fields : List String
  limit : Int

/-- `QueryRouter.route`: look the target up in the registry; absent →
`("DOC", query)`; present but falsy (`not schema`, i.e. the empty
dict) → DOC; present with a `"top_table"` key → SQL; otherwise
DOC. -/
def QueryRouter.route (registry : SchemaRegistry) (query : QueryRequest) :
    String × QueryRequest :=
  match SchemaRegistry.get registry query.target with
  | none => ("DOC", query)
  | some schema =>
    if schema.isEmpty then ("DOC", query)
    else if hasKey schema "top_table" then ("SQL", query)
    else ("DOC", query)

/-! ### `src/rag/retriever.py` -/

/-- Python `str(v)` as used inside the rendered schema text.  The
renderings of containers and floats are abbreviated: the text is only
an uninterpreted input of the similarity search, which no claim inspects. -/
def valText : Val → String
  | .null => "None"
  | .bool true => "True"
  | .bool false => "False"
  | .int n => toString n
  | .float f => toString f.num ++ "/" ++ toString f.den
  | .str s => s
  | .arr _ => "[...]"
  | .obj _ => "\x7b...\x7d"

/-- `schema_to_text` from `retriever.py`: name and notes, then for a
relational schema the table, columns and child tables, and for a
document schema the path list. -/
def schema_to_text (name : String) (schema : PyDict Val) (notes : String) : String :=
  let parts := ["name: " ++ name, notes]
  let parts :=
    if hasKey schema "top_table" then
      let ctLines :=
        match getD schema "child_tables" (.arr []) with
        | .arr cts =>
          cts.map
            (fun ct =>
              match ct with
              | .obj cfs =>
                "child_table: " ++ valText (pyGetD cfs "name") ++ " root: "
                  ++ valText (pyGetD cfs "root_path")
              | _ => "")
        | _ => []
      parts
        ++ ["top_table: " ++ valText (getD schema "top_table" .null),
          "top_cols: "
            ++ String.intercalate " "
              (match getD schema "top_cols" (.arr []) with
              | .arr l => l.map valText
              | _ => [])]
        ++ ctLines
    else
      parts
        ++ ["paths: "
            ++ String.intercalate " "
              (match getD schema "paths" (.arr []) with
              | .arr l => l.map valText
              | _ => [])]
  String.intercalate "\n" parts

/-- The retriever state built by `SchemaRetriever.build`: the names and
rendered documents, in registry order.  The fitted TF-IDF matrix is
abstracted: `search` takes the cosine-similarity vector as an input. -/
structure RetrState where
  names : List String
  docs : List String

/-- `SchemaRetriever.build`: a full rebuild from `registry.list()`, in
registry insertion order, with notes from `notes_map`. -/
def SchemaRetriever.build (registry : SchemaRegistry) (notes_map : PyDict String) : RetrState :=
  { names := registry.schemas.map (fun kv => kv.1)
    docs :=
      registry.schemas.map (fun kv => schema_to_text kv.1 kv.2 (getD notes_map kv.1 "")) }

/-- Stable descending insertion: an element is placed before the first
element whose score it weakly exceeds, so earlier elements precede
later ones with equal score. -/
def insertRanked (x : String × ℚ) : List (String × ℚ) → List (String × ℚ)
  | [] => [x]
  | y :: ys => if x.2 ≥ y.2 then x :: y :: ys else y :: insertRanked x ys

/-- `sorted(zip(names, sims), key=score, reverse=True)`: Python's sort
is stable and `reverse=True` preserves the order of equal keys; any two
stable sorts by the same key agree, so this insertion sort embeds
it. -/
def rankDesc (l : List (String × ℚ)) : List (String × ℚ) :=
  l.foldr insertRanked []

/-- `SchemaRetriever.search`: empty state → empty result; otherwise the
`(name, score)` pairs sorted descending by score (stable) and truncated
to `top_k`.  `sims` is the cosine-similarity vector the TF-IDF backend
computes for the query. -/
def SchemaRetriever.search (st : RetrState) (sims : List ℚ) (top_k : Nat) :
    List (String × ℚ) :=
  if st.docs.isEmpty then []
  else (rankDesc (st.names.zip sims)).take top_k


/-! ### Basic lemmas about the dict model -/

/-- Looking a key up after a dict assignment. -/
theorem lookup_upd {α : Type} (m : PyDict α) (k k' : String) (v : α) :
    lookupPy (upd m k v) k' = if k' = k then some v else lookupPy m k' := by
  induction m with
  | nil =>
    by_cases h : k' = k
    · subst h; simp [upd, lookupPy]
    · simp [upd, lookupPy, h, Ne.symm h]
  | cons kv rest ih =>
    obtain ⟨a, b⟩ := kv
    by_cases hak : a = k
    · subst hak
      by_cases hk : k' = a
      · subst hk; simp [upd, lookupPy]
      · simp [upd, lookupPy, hk, Ne.symm hk]
    · by_cases hk : k' = a
      · subst hk
        simp [upd, lookupPy, beq_iff_eq, hak, Ne.symm hak]
      · by_cases hkk : k' = k
        · subst hkk
          simp [upd, lookupPy, beq_iff_eq, hak, Ne.symm hk, ih]
        · simp [upd, lookupPy, beq_iff_eq, hak, Ne.symm hk, hkk, ih]

theorem lookup_upd_self {α : Type} (m : PyDict α) (k : String) (v : α) :
    lookupPy (upd m k v) k = some v := by
  simp [lookup_upd]

theorem lookup_upd_ne {α : Type} (m : PyDict α) (k k' : String) (v : α) (h : k' ≠ k) :
    lookupPy (upd m k v) k' = lookupPy m k' := by
  simp [lookup_upd, h]

/-- A key–value fold that never writes `key` leaves `key`'s binding
unchanged (the shape of the child-row field loop). -/
theorem lookup_foldl_upd (f : String → String) (key : String) :
    ∀ (l : List (String × Val)) (r0 : PyDict Val), (∀ kv ∈ l, f kv.1 ≠ key) →
      lookupPy (l.foldl (fun r kv => upd r (f kv.1) kv.2) r0) key = lookupPy r0 key := by
  intro l
  induction l with
  | nil => intro r0 _; rfl
  | cons kv rest ih =>
    intro r0 h
    simp only [List.foldl_cons]
    rw [ih _ (fun x hx => h x (List.mem_cons_of_mem _ hx)),
      lookup_upd_ne r0 (f kv.1) key kv.2 (Ne.symm (h kv (List.mem_cons_self _ _)))]

/-! ### Lemmas about the analyzer -/

theorem orOne_pos (n : Nat) : 0 < orOne n := by
  unfold orOne; split <;> omega

theorem Frac.add_den_pos {a b : Frac} (ha : 0 < a.den) (hb : 0 < b.den) :
    0 < (Frac.add a b).den := by
  exact Nat.mul_pos ha hb

theorem Frac.sumList_den_pos (l : List Frac) (h : ∀ f ∈ l, 0 < f.den) :
    0 < (Frac.sumList l).den := by
  have main : ∀ (l : List Frac) (acc : Frac), 0 < acc.den → (∀ f ∈ l, 0 < f.den) →
      0 < (l.foldl Frac.add acc).den := by
    intro l
    induction l with
    | nil => intro acc hacc _; exact hacc
    | cons f rest ih =>
      intro acc hacc hf
      exact ih _ (Frac.add_den_pos hacc (hf f (List.mem_cons_self _ _)))
        (fun g hg => hf g (List.mem_cons_of_mem _ hg))
  exact main l ⟨0, 1⟩ (by decide) h

/-- The float comparison `a >= b` agrees with the rational order when
the denominators are positive. -/
theorem Frac.ge_iff_toRat {a b : Frac} (ha : 0 < a.den) (hb : 0 < b.den) :
    Frac.ge a b = true ↔ b.toRat ≤ a.toRat := by
  unfold Frac.ge Frac.toRat
  rw [decide_eq_true_iff]
  rw [div_le_div_iff₀ (by exact_mod_cast hb) (by exact_mod_cast ha)]
  constructor <;> intro h <;> exact_mod_cast h

theorem collectPaths_ok (docs : List Val) :
    ∀ (acc : PathTypes), (∀ d ∈ docs, ∃ fs, d = Val.obj fs) →
      ∃ pts, collectPaths docs acc = .ok pts := by
  induction docs with
  | nil => exact fun acc _ => ⟨acc, rfl⟩
  | cons d rest ih =>
    intro acc h
    obtain ⟨fs, rfl⟩ := h d (List.mem_cons_self _ _)
    exact ih _ (fun x hx => h x (List.mem_cons_of_mem _ hx))

theorem collectPaths_err (docs : List Val) :
    ∀ (acc : PathTypes), (∃ d ∈ docs, ∀ fs, d ≠ Val.obj fs) →
      collectPaths docs acc = .error .attributeError := by
  induction docs with
  | nil =>
    rintro acc ⟨d, hd, -⟩
    exact absurd hd (List.not_mem_nil d)
  | cons d rest ih =>
    rintro acc ⟨w, hw, hne⟩
    cases d with
    | obj fs =>
      rcases List.mem_cons.mp hw with rfl | hw'
      · exact absurd rfl (hne fs)
      · exact ih _ ⟨w, hw', hne⟩
    | null => rfl
    | bool b => rfl
    | int n => rfl
    | float f => rfl
    | str s => rfl
    | arr l => rfl

/-- The decision line of `analyze_batch`, characterised against the
rational value of the score. -/
theorem decision_iff (S : Frac) (Rel : List String) (hden : 0 < S.den) :
    ((if Frac.ge S ⟨3, 20⟩ || decide (Rel.length > 0) then "SQL" else "DOC") = "SQL")
      ↔ ((3 : ℚ) / 20 ≤ S.toRat ∨ Rel ≠ []) := by
  have h320 : (Frac.toRat ⟨3, 20⟩) = 3 / 20 := by norm_num [Frac.toRat]
  have hbridge := Frac.ge_iff_toRat (a := S) (b := ⟨3, 20⟩) hden (by decide)
  rw [h320] at hbridge
  cases hcond : (Frac.ge S ⟨3, 20⟩ || decide (Rel.length > 0)) with
  | true =>
    rw [if_pos rfl]
    have hor : Frac.ge S ⟨3, 20⟩ = true ∨ decide (Rel.length > 0) = true := by
      simpa using hcond
    constructor
    · intro _
      rcases hor with hge | hlen
      · exact Or.inl (hbridge.mp hge)
      · exact Or.inr (List.length_pos.mp (of_decide_eq_true hlen))
    · intro _; rfl
  | false =>
    rw [if_neg (by decide)]
    have hand : Frac.ge S ⟨3, 20⟩ = false ∧ decide (Rel.length > 0) = false := by
      simpa using hcond
    constructor
    · intro h
      exact absurd h (by decide)
    · rintro (hr | hr)
      · exact absurd (hbridge.mpr hr) (by simp [hand.1])
      · exact absurd (decide_eq_true (List.length_pos.mpr hr)) (by simp [hand.2])

/-! ### Claim C10 — empty-batch totality of the analyzer -/

/-- Claim C10: `analyze_batch` on the empty batch performs no division by
zero (the `or 1` guards apply, and the per-path ratios are never
computed because the path set is empty) and returns a normal result:
decision `DOC`, a stability score whose value is `0`, and empty
common-path, optionality, type-variability, relation and
path-statistics collections. -/
theorem analyze_batch_empty_total :
    analyze_batch ([] : List Val) =
      .ok { decision := "DOC", common_paths := [], optionality := [],
            type_variability := [], relations := [], path_types := [],
            stability_score := ⟨0, 10⟩ } ∧
    Frac.toRat ⟨0, 10⟩ = 0 :=
  ⟨rfl, by norm_num [Frac.toRat]⟩

/-! ### Claim C1 — batch validation -/

/-- Claim C1 (counterexample): `analyze_batch` does not fail on the empty
batch — it returns a result — and a batch with a non-dict element fails
with `AttributeError`, not with the spec's ValidationError. -/
theorem analyze_batch_empty_returns_result :
    (analyze_batch ([] : List Val)).isOk = true ∧
    analyze_batch [Val.int 0] = .error .attributeError ∧
    PyErr.attributeError ≠ PyErr.validationError :=
  ⟨rfl, rfl, by decide⟩

/-- Claim C1 (amended): `analyze_batch` performs no input validation: the
empty batch returns a normal result, a batch containing a non-dict
element raises `AttributeError` (not ValidationError), and every batch
of dicts returns a result. -/
theorem analyze_batch_validation_behaviour :
    (analyze_batch ([] : List Val)).isOk = true ∧
    (∀ docs : List Val, (∃ d ∈ docs, ∀ fs, d ≠ Val.obj fs) →
      analyze_batch docs = .error .attributeError) ∧
    (∀ docs : List Val, docs ≠ [] → (∀ d ∈ docs, ∃ fs, d = Val.obj fs) →
      (analyze_batch docs).isOk = true) := by
  refine ⟨rfl, ?_, ?_⟩
  · intro docs h
    unfold analyze_batch
    rw [collectPaths_err docs [] h]
  · intro docs _ hobj
    obtain ⟨pts, hpts⟩ := collectPaths_ok docs [] hobj
    unfold analyze_batch
    rw [hpts]
    rfl

/-- Witness for C1's amended theorem. -/
theorem analyze_batch_validation_behaviour_witness :
    analyze_batch [Val.int 3] = .error .attributeError ∧
    (analyze_batch [Val.obj [("event", Val.str "click")]]).isOk = true :=
  ⟨analyze_batch_validation_behaviour.2.1 [Val.int 3]
      ⟨Val.int 3, by simp, by simp⟩,
   analyze_batch_validation_behaviour.2.2 [Val.obj [("event", Val.str "click")]]
      (by simp)
      (by intro d hd; rw [List.mem_singleton] at hd; exact ⟨_, hd⟩)⟩

/-! ### Claim C5 — storage decision rule -/

/-- Claim C5: for every non-empty batch of dict documents the analysis
succeeds, its decision is `SQL` exactly when the computed stability
score is at least `0.15` or a relation path exists, and the relation
paths are exactly the flattened paths ending in `"[]"`. -/
theorem storage_decision_rule (docs : List Val) (hne : docs ≠ [])
    (hobj : ∀ d ∈ docs, ∃ fs, d = Val.obj fs) :
    ∃ r, analyze_batch docs = .ok r ∧
      (r.decision = "SQL" ↔ ((3 : ℚ) / 20 ≤ r.stability_score.toRat ∨ r.relations ≠ [])) ∧
      r.relations = (r.path_types.map (fun kv => kv.1)).filter (fun p => strEndsWith p "[]") := by
  obtain ⟨pts, hpts⟩ := collectPaths_ok docs [] hobj
  have hlen : 0 < docs.length := List.length_pos.mpr hne
  unfold analyze_batch
  rw [hpts]
  refine ⟨_, rfl, ?_, rfl⟩
  dsimp only
  refine decision_iff _ _ ?_
  simp only [Frac.sub, Frac.divNat]
  refine Nat.mul_pos
    (Nat.mul_pos (orOne_pos _) (Nat.mul_pos (by norm_num) (orOne_pos _)))
    (Nat.mul_pos ?_ (orOne_pos _))
  refine Frac.sumList_den_pos _ ?_
  intro f hf
  simp only [List.map_map, List.mem_map] at hf
  obtain ⟨kv, -, rfl⟩ := hf
  simp [Frac.sub, Function.comp]
  omega

/-- The two documents of the §8 ingest scenario of the spec. -/
def specDoc1 : Val :=
  .obj [("id", .int 1), ("name", .str "Alice"), ("country", .str "IN"),
    ("orders", .arr [.obj [("sku", .str "A1"), ("qty", .int 2)]])]

/-- The second document of the §8 ingest scenario of the spec. -/
def specDoc2 : Val :=
  .obj [("id", .int 2), ("name", .str "Bob"), ("country", .str "US"),
    ("orders", .arr [.obj [("sku", .str "B1"), ("qty", .int 1)],
      .obj [("sku", .str "B2"), ("qty", .int 3)]])]

/-- Witness for C5's theorem, at the §8 scenario batch. -/
theorem storage_decision_rule_witness :
    ∃ r, analyze_batch [specDoc1, specDoc2] = .ok r ∧
      (r.decision = "SQL" ↔ ((3 : ℚ) / 20 ≤ r.stability_score.toRat ∨ r.relations ≠ [])) ∧
      r.relations = (r.path_types.map (fun kv => kv.1)).filter (fun p => strEndsWith p "[]") :=
  storage_decision_rule [specDoc1, specDoc2] (by simp)
    (by
      intro d hd
      simp only [List.mem_cons, List.not_mem_nil, or_false] at hd
      rcases hd with rfl | rfl
      · exact ⟨_, rfl⟩
      · exact ⟨_, rfl⟩)

/-! ### Claim C2 — schema proposal column selection -/

/-- Unrolling the `propose_sql_model` loop: child tables collect the
paths typed `obj_list`, top columns collect the separator-free,
non-`[]` paths that are not `obj_list`-typed. -/
theorem foldl_proposeStep (pts : PathTypes) :
    ∀ acc : List String × List ChildTable,
      pts.foldl proposeStep acc =
        (acc.1 ++ (pts.filter (fun kv => !hasKey kv.2 "obj_list"
            && (!strContainsChar kv.1 '.' && !strEndsWith kv.1 "[]"))).map (fun kv => kv.1),
         acc.2 ++ (pts.filter (fun kv => hasKey kv.2 "obj_list")).map
           (fun kv => ⟨strReplace "." "_" (strReplace "[]" "" kv.1),
             strReplace "[]" "" kv.1⟩)) := by
  induction pts with
  | nil => intro acc; simp
  | cons kv rest ih =>
    intro acc
    simp only [List.foldl_cons, ih]
    unfold proposeStep
    cases h1 : hasKey kv.2 "obj_list" with
    | true =>
      simp [List.filter_cons, h1]
    | false =>
      cases h2 : (!strContainsChar kv.1 '.' && !strEndsWith kv.1 "[]") with
      | true => simp [List.filter_cons, h1, h2]
      | false => simp [List.filter_cons, h1, h2]

/-- Claim C2 (counterexample): on the §8 two-document scenario the proposed
top-level columns are `id, name, country, orders` — the relation-root
field `orders` is not excluded — and not `id, name, country` as the
claim states. -/
theorem spec_scenario_top_cols_include_orders :
    (analyze_batch [specDoc1, specDoc2]).toOption.map (fun r => (propose_sql_model r).top_cols)
      = some ["id", "name", "country", "orders"] ∧
    (analyze_batch [specDoc1, specDoc2]).toOption.map (fun r => (propose_sql_model r).top_cols)
      ≠ some ["id", "name", "country"] :=
  ⟨rfl, by decide⟩

/-- Claim C2 (amended): for every analysis result, each path recorded with an
`obj_list` type (each array-of-objects root) becomes exactly one child
table named by its root path; the top-level columns are the paths
without a separator and not ending in `"[]"` that are not `obj_list`
roots — which includes the relation-root field itself (e.g. `orders`,
observed with type `list`).  For the §8 scenario the proposal is top
table `items` with columns `id, name, country, orders` and one child
table `orders` with root path `orders`. -/
theorem propose_sql_model_structure :
    (∀ r : Analysis,
      (propose_sql_model r).top_table = "items" ∧
      (propose_sql_model r).child_tables =
        (r.path_types.filter (fun kv => hasKey kv.2 "obj_list")).map
          (fun kv => ⟨strReplace "." "_" (strReplace "[]" "" kv.1),
            strReplace "[]" "" kv.1⟩) ∧
      (propose_sql_model r).top_cols =
        ((r.path_types.filter (fun kv => !hasKey kv.2 "obj_list"
            && (!strContainsChar kv.1 '.' && !strEndsWith kv.1 "[]"))).map
          (fun kv => kv.1)).map (strReplace "." "_")) ∧
    (analyze_batch [specDoc1, specDoc2]).toOption.map propose_sql_model =
      some { top_table := "items", top_cols := ["id", "name", "country", "orders"],
             child_tables := [⟨"orders", "orders"⟩] } := by
  constructor
  · intro r
    unfold propose_sql_model
    rw [foldl_proposeStep]
    exact ⟨rfl, by simp, by simp⟩
  · rfl

/-! ### Claim C7 — routing rule -/

theorem hasKey_ne_nil {α : Type} {s : PyDict α} {k : String} (h : hasKey s k = true) :
    s.isEmpty = false := by
  cases s with
  | nil => simp [hasKey] at h
  | cons kv rest => rfl

/-- Claim C7: `route` returns SQL exactly when the registry holds the target
with a `top_table` key; it returns DOC when the entry lacks the key and
DOC (fail-open, total — no error) when the target is absent. -/
theorem route_marker_rule (registry : SchemaRegistry) (q : QueryRequest) :
    ((QueryRouter.route registry q).1 = "SQL" ↔
      ∃ s, SchemaRegistry.get registry q.target = some s ∧ hasKey s "top_table" = true) ∧
    (SchemaRegistry.get registry q.target = none → (QueryRouter.route registry q).1 = "DOC") ∧
    (∀ s, SchemaRegistry.get registry q.target = some s → hasKey s "top_table" = false →
      (QueryRouter.route registry q).1 = "DOC") ∧
    ((QueryRouter.route registry q).1 = "SQL" ∨ (QueryRouter.route registry q).1 = "DOC") ∧
    (QueryRouter.route registry q).2 = q := by
  unfold QueryRouter.route
  cases hget : SchemaRegistry.get registry q.target with
  | none =>
    dsimp only
    refine ⟨?_, fun _ => rfl, fun s hs => Option.noConfusion hs, Or.inr rfl, rfl⟩
    constructor
    · intro h
      exact absurd h (by simp)
    · rintro ⟨s, hs, -⟩
      exact Option.noConfusion hs
  | some s =>
    dsimp only
    cases hkey : hasKey s "top_table" with
    | true =>
      rw [hasKey_ne_nil hkey, if_neg (by decide), if_pos rfl]
      refine ⟨⟨fun _ => ⟨s, rfl, hkey⟩, fun _ => rfl⟩, ?_, ?_, Or.inl rfl, rfl⟩
      · intro h
        exact Option.noConfusion h
      · intro s' hs' hk
        obtain rfl : s = s' := by injection hs'
        rw [hkey] at hk
        exact Bool.noConfusion hk
    | false =>
      have hroute : (if s.isEmpty = true then (("DOC", q) : String × QueryRequest)
          else if false = true then ("SQL", q) else ("DOC", q)) = ("DOC", q) := by
        cases hemp : s.isEmpty with
        | true => rw [if_pos rfl]
        | false => rw [if_neg (by simp), if_neg (by decide)]
      rw [hroute]
      refine ⟨?_, fun h => Option.noConfusion h, fun _ _ _ => rfl, Or.inr rfl, rfl⟩
      constructor
      · intro h
        exact absurd h (by simp)
      · rintro ⟨s', hs', hk⟩
        obtain rfl : s = s' := by injection hs'
        rw [hkey] at hk
        exact Bool.noConfusion hk

/-- Witness for C7's theorem: a registered relational entry routes to
SQL, an absent target routes to DOC. -/
theorem route_marker_rule_witness :
    (QueryRouter.route ⟨[("items", [("top_table", Val.str "items")])], []⟩
        ⟨"items", [], [], 100⟩).1 = "SQL" ∧
    (QueryRouter.route ⟨[("items", [("top_table", Val.str "items")])], []⟩
        ⟨"events", [], [], 100⟩).1 = "DOC" :=
  ⟨(route_marker_rule _ _).1.mpr ⟨_, rfl, rfl⟩, (route_marker_rule _ _).2.1 rfl⟩

/-! ### Claim C8 — retriever result order -/

theorem mem_insertRanked {x a : String × ℚ} :
    ∀ {l : List (String × ℚ)}, a ∈ insertRanked x l ↔ a = x ∨ a ∈ l := by
  intro l
  induction l with
  | nil => simp [insertRanked]
  | cons y ys ih =>
    unfold insertRanked
    by_cases h : x.2 ≥ y.2
    · rw [if_pos h]
      simp [List.mem_cons]
    · rw [if_neg h]
      simp only [List.mem_cons, ih]
      tauto

theorem pairwise_insertRanked (x : String × ℚ) :
    ∀ (l : List (String × ℚ)), List.Pairwise (fun a b => b.2 ≤ a.2) l →
      List.Pairwise (fun a b => b.2 ≤ a.2) (insertRanked x l) := by
  intro l
  induction l with
  | nil => intro _; simp [insertRanked]
  | cons y ys ih =>
    intro hp
    rw [List.pairwise_cons] at hp
    unfold insertRanked
    by_cases h : x.2 ≥ y.2
    · rw [if_pos h]
      refine List.Pairwise.cons ?_ (List.Pairwise.cons hp.1 hp.2)
      intro z hz
      rcases List.mem_cons.mp hz with rfl | hz'
      · exact h
      · exact le_trans (hp.1 z hz') h
    · rw [if_neg h]
      refine List.Pairwise.cons ?_ (ih hp.2)
      intro z hz
      rcases mem_insertRanked.mp hz with rfl | hz'
      · exact le_of_not_le h
      · exact hp.1 z hz'

theorem pairwise_rankDesc (l : List (String × ℚ)) :
    List.Pairwise (fun a b => b.2 ≤ a.2) (rankDesc l) := by
  induction l with
  | nil => simp [rankDesc]
  | cons a l ih => exact pairwise_insertRanked a _ ih

theorem filter_insertRanked (x : String × ℚ) (q : ℚ) :
    ∀ (l : List (String × ℚ)),
      (insertRanked x l).filter (fun p => p.2 == q)
        = if x.2 == q then x :: l.filter (fun p => p.2 == q)
          else l.filter (fun p => p.2 == q) := by
  intro l
  induction l with
  | nil =>
    by_cases hx : x.2 = q
    · simp [insertRanked, List.filter, hx]
    · simp [insertRanked, List.filter, hx, beq_eq_false_iff_ne.mpr hx]
  | cons y ys ih =>
    unfold insertRanked
    by_cases h : x.2 ≥ y.2
    · rw [if_pos h]
      simp [List.filter_cons]
    · rw [if_neg h]
      have hlt : x.2 < y.2 := lt_of_not_le h
      by_cases hx : x.2 = q
      · have hy : (y.2 == q) = false := by
          refine beq_eq_false_iff_ne.mpr ?_
          intro hEq
          rw [hx] at hlt
          rw [hEq] at hlt
          exact lt_irrefl _ hlt
        simp [List.filter_cons, hy, ih, hx]
      · have hx' : (x.2 == q) = false := beq_eq_false_iff_ne.mpr hx
        simp [List.filter_cons, ih, hx']

/-- The stable sort leaves the relative order of equal-score entries
unchanged: filtering any single score value out of the sorted list
yields those entries in their original (registration) order. -/
theorem filter_rankDesc (q : ℚ) :
    ∀ (l : List (String × ℚ)),
      (rankDesc l).filter (fun p => p.2 == q) = l.filter (fun p => p.2 == q) := by
  intro l
  induction l with
  | nil => rfl
  | cons a l ih =>
    show (insertRanked a (rankDesc l)).filter (fun p => p.2 == q) = _
    rw [filter_insertRanked]
    by_cases hx : a.2 = q
    · rw [if_pos (by exact_mod_cast beq_iff_eq.mpr hx), ih,
        List.filter_cons_of_pos (by exact beq_iff_eq.mpr hx)]
    · rw [if_neg (by simp [hx]), ih,
        List.filter_cons_of_neg (by simp [hx])]

/-- Claim C8: `search` over a built retriever state returns at most `top_k`
pairs, ordered descending by score; equal-score entries keep their
original registration order (the stable-sort filter property); the
state's names are the registry names in registration order; and a state
built from an empty registry searches to the empty list without
error. -/
theorem retriever_search_ranking (registry : SchemaRegistry) (nm : PyDict String)
    (sims : List ℚ) (top_k : Nat) :
    (SchemaRetriever.search (SchemaRetriever.build registry nm) sims top_k).length ≤ top_k ∧
    List.Pairwise (fun a b => b.2 ≤ a.2)
      (SchemaRetriever.search (SchemaRetriever.build registry nm) sims top_k) ∧
    (∀ q : ℚ,
      (rankDesc ((SchemaRetriever.build registry nm).names.zip sims)).filter
          (fun p => p.2 == q)
        = ((SchemaRetriever.build registry nm).names.zip sims).filter (fun p => p.2 == q)) ∧
    (SchemaRetriever.build registry nm).names = registry.schemas.map (fun kv => kv.1) ∧
    SchemaRetriever.search (SchemaRetriever.build ⟨[], registry.snapshots⟩ nm) sims top_k
      = [] := by
  refine ⟨?_, ?_, fun q => filter_rankDesc q _, rfl, rfl⟩
  · unfold SchemaRetriever.search
    split
    · simp
    · exact List.length_take_le _ _
  · unfold SchemaRetriever.search
    split
    · simp
    · exact List.Pairwise.sublist (List.take_sublist _ _) (pairwise_rankDesc _)

/-! ### Claim C9 — first-element sampling in the flattener -/

mutual
/-- Structural size of a value (induction measure for the flattener
lemmas). -/
def vsize : Val → Nat
  | .arr l => 1 + lsize l
  | .obj fs => 1 + fsize fs
  | _ => 1

/-- Structural size of a value list. -/
def lsize : List Val → Nat
  | [] => 0
  | v :: vs => vsize v + lsize vs

/-- Structural size of a field list. -/
def fsize : List (String × Val) → Nat
  | [] => 0
  | (_, v) :: fs => vsize v + fsize fs
end

theorem one_le_vsize (v : Val) : 1 ≤ vsize v := by
  cases v <;> simp [vsize]

mutual
/-- Discards everything the flattener never samples: all elements of a
list except a first dict element, applied recursively. -/
def truncVal : Val → Val
  | .obj fs => .obj (truncFields fs)
  | .arr (.obj hfs :: _) => .arr [.obj (truncFields hfs)]
  | .arr _ => .arr []
  | v => v

/-- `truncVal` over the values of a field list. -/
def truncFields : List (String × Val) → List (String × Val)
  | [] => []
  | (k, v) :: fs => (k, truncVal v) :: truncFields fs
end

theorem self_ne_append_brackets (p : String) : (p == p ++ "[]") = false := by
  refine beq_eq_false_iff_ne.mpr ?_
  intro h
  have hl := congrArg String.length h
  rw [String.length_append] at hl
  have h2 : String.length "[]" = 2 := rfl
  omega

theorem type_name_trunc (v : Val) : type_name (truncVal v) = type_name v := by
  cases v with
  | arr l =>
    cases l with
    | nil => rfl
    | cons hd tl => cases hd <;> rfl
  | null => rfl
  | bool b => rfl
  | int n => rfl
  | float f => rfl
  | str s => rfl
  | obj fs => rfl

theorem flattenLoop_trunc :
    ∀ (n : Nat) (fs : List (String × Val)) (parent : String) (acc : PyDict String),
      fsize fs ≤ n →
      flattenLoop (truncFields fs) parent acc = flattenLoop fs parent acc := by
  intro n
  induction n with
  | zero =>
    intro fs parent acc h
    cases fs with
    | nil => rfl
    | cons kv rest =>
      exfalso
      obtain ⟨k, v⟩ := kv
      have := one_le_vsize v
      simp [fsize] at h
      omega
  | succ n ih =>
    intro fs parent acc h
    cases fs with
    | nil => rfl
    | cons kv rest =>
      obtain ⟨k, v⟩ := kv
      have hv1 := one_le_vsize v
      have hsz : vsize v + fsize rest ≤ n + 1 := by simpa [fsize] using h
      have hrest : fsize rest ≤ n := by omega
      show flattenLoop ((k, truncVal v) :: truncFields rest) parent acc = _
      simp only [flattenLoop, type_name_trunc]
      have hentry : ∀ acc' : PyDict String,
          flattenEntry (truncVal v) (joinPath parent k) acc'
            = flattenEntry v (joinPath parent k) acc' := by
        intro acc'
        cases v with
        | obj fs' =>
          have hfs' : fsize fs' ≤ n := by
            have : vsize (Val.obj fs') = 1 + fsize fs' := rfl
            omega
          show flattenEntry (.obj (truncFields fs')) _ _ = _
          simp only [flattenEntry]
          rw [ih fs' _ [] hfs']
        | arr l =>
          cases l with
          | nil => rfl
          | cons hd tl =>
            cases hd with
            | obj hfs =>
              have hhfs : fsize hfs ≤ n := by
                have : vsize (Val.arr (Val.obj hfs :: tl))
                    = 1 + ((1 + fsize hfs) + lsize tl) := rfl
                omega
              show flattenEntry (.arr [.obj (truncFields hfs)]) _ _ = _
              simp only [flattenEntry]
              rw [ih hfs _ [] hhfs]
            | null => rfl
            | bool b => rfl
            | int n => rfl
            | float f => rfl
            | str s => rfl
            | arr l' => rfl
        | null => rfl
        | bool b => rfl
        | int n => rfl
        | float f => rfl
        | str s => rfl
      rw [hentry]
      exact ih rest parent _ hrest

/-- The flattened path dict of a document is unchanged by discarding
everything past a sampled first list element. -/
theorem flatten_trunc (d : List (String × Val)) (parent : String) :
    flatten_paths (truncFields d) parent = flatten_paths d parent :=
  flattenLoop_trunc (fsize d) d parent [] le_rfl

theorem collectPaths_trunc (docs : List Val) :
    ∀ acc : PathTypes, collectPaths (docs.map truncVal) acc = collectPaths docs acc := by
  induction docs with
  | nil => intro acc; rfl
  | cons d rest ih =>
    intro acc
    cases d with
    | obj fs =>
      show collectPaths (.obj (truncFields fs) :: rest.map truncVal) acc = _
      simp only [collectPaths]
      rw [flatten_trunc]
      exact ih _
    | arr l =>
      cases l with
      | nil => rfl
      | cons hd tl => cases hd <;> rfl
    | null => rfl
    | bool b => rfl
    | int n => rfl
    | float f => rfl
    | str s => rfl

/-- Claim C9: a key whose value is a list is recorded as a relation root
(`path + "[]"`) exactly when the list is nonempty and its first element
is a dict, and only that first element contributes nested paths; the
shapes of later list elements never change the flattened path dict, and
hence never change the analysis (including the storage decision). -/
theorem flatten_first_element_sampling :
    (∀ (parent k : String) (l : List Val),
      flatten_paths [(k, Val.arr l)] parent =
        (match l with
          | .obj hfs :: _ =>
            updAll [(joinPath parent k, "list"), (joinPath parent k ++ "[]", "obj_list")]
              (flatten_paths hfs (joinPath parent k ++ "[]"))
          | _ => [(joinPath parent k, "list")])) ∧
    (∀ (d : List (String × Val)) (parent : String),
      flatten_paths (truncFields d) parent = flatten_paths d parent) ∧
    (∀ docs : List Val, analyze_batch (docs.map truncVal) = analyze_batch docs) := by
  refine ⟨?_, flatten_trunc, ?_⟩
  · intro parent k l
    show flattenLoop [(k, Val.arr l)] parent [] = _
    simp only [flattenLoop]
    cases l with
    | nil => rfl
    | cons hd tl =>
      cases hd with
      | obj hfs =>
        show flattenEntry (Val.arr (Val.obj hfs :: tl)) (joinPath parent k)
            (upd [] (joinPath parent k) "list") = _
        simp only [flattenEntry]
        have hupd : upd (upd [] (joinPath parent k) "list")
            (joinPath parent k ++ "[]") "obj_list"
            = [(joinPath parent k, "list"), (joinPath parent k ++ "[]", "obj_list")] := by
          simp [upd, self_ne_append_brackets]
        rw [hupd]
        rfl
      | null => rfl
      | bool b => rfl
      | int n => rfl
      | float f => rfl
      | str s => rfl
      | arr l' => rfl
  · intro docs
    unfold analyze_batch
    rw [collectPaths_trunc, List.length_map]

/-! ### Claim C3 — relational batch atomicity -/

/-- The rows of table `n` (empty when the table does not exist). -/
def rowsOf (tbls : SQLTables) (n : String) : List (PyDict Val) :=
  match lookupPy tbls n with
  | some t => t.rows
  | none => []

/-- The `_raw` column of each row of table `n`. -/
def rawsOf (tbls : SQLTables) (n : String) : List (Option Val) :=
  (rowsOf tbls n).map (fun row => lookupPy row "_raw")

/-- The elements the child-row loop visits for one document and one
root path: the value at the root path, when it is a list. -/
def childElems (doc : Val) (root : String) : List Val :=
  match get_by_path doc root with
  | some (.arr items) => items
  | _ => []

theorem buildTopRowCols_err (doc : Val) :
    ∀ (cs : List String) (row : PyDict Val) (e : PyErr),
      buildTopRowCols doc cs row = .error e → e = .attributeError := by
  intro cs
  induction cs with
  | nil => intro row e h; cases h
  | cons c cs ih =>
    intro row e h
    cases doc with
    | obj fs => exact ih _ e h
    | null => injection h with h'; exact h'.symm
    | bool b => injection h with h'; exact h'.symm
    | int n => injection h with h'; exact h'.symm
    | float f => injection h with h'; exact h'.symm
    | str s => injection h with h'; exact h'.symm
    | arr l => injection h with h'; exact h'.symm

theorem buildTopRow_err {model : RelModel} {doc : Val} {e : PyErr}
    (h : buildTopRow model doc = .error e) : e = .attributeError := by
  unfold buildTopRow at h
  cases hbc : buildTopRowCols doc model.top_cols [] with
  | ok row => rw [hbc] at h; cases h
  | error e' =>
    rw [hbc] at h
    injection h with h'
    subst h'
    exact buildTopRowCols_err doc _ _ _ hbc

theorem childRow_err {pid : Nat} {item : Val} {e : PyErr}
    (h : childRow pid item = .error e) : e = .attributeError := by
  cases item with
  | obj ifs => cases h
  | null => injection h with h'; exact h'.symm
  | bool b => injection h with h'; exact h'.symm
  | int n => injection h with h'; exact h'.symm
  | float f => injection h with h'; exact h'.symm
  | str s => injection h with h'; exact h'.symm
  | arr l => injection h with h'; exact h'.symm

theorem execIns_err {tbls : SQLTables} {tname : String} {row : PyDict Val} {e : PyErr}
    (h : execIns tbls tname row = .error e) : isStorageError e = false := by
  unfold execIns at h
  cases hlk : lookupPy tbls tname with
  | none =>
    rw [hlk] at h
    injection h with h'
    subst h'
    rfl
  | some t =>
    rw [hlk] at h
    dsimp only at h
    by_cases h1 : (row.all fun kv => hasKey t.cols kv.1) = true
    · rw [if_pos h1] at h
      by_cases h2 : (row.all fun kv => bindOK (getD t.cols kv.1 .text) kv.2) = true
      · rw [if_pos h2] at h; cases h
      · rw [if_neg h2] at h
        injection h with h'
        subst h'
        rfl
    · rw [if_neg h1] at h
      injection h with h'
      subst h'
      rfl

theorem insertItems_err (cname : String) (pid : Nat) :
    ∀ (items : List Val) (tbls : SQLTables) (e : PyErr),
      insertItems tbls cname pid items = .error e → isStorageError e = false := by
  intro items
  induction items with
  | nil => intro tbls e h; cases h
  | cons item rest ih =>
    intro tbls e h
    unfold insertItems at h
    cases hcr : childRow pid item with
    | error e' =>
      rw [hcr] at h
      injection h with h'
      subst h'
      rw [childRow_err hcr]
      rfl
    | ok crow =>
      rw [hcr] at h
      dsimp only at h
      cases hex : execIns tbls cname crow with
      | error e' =>
        rw [hex] at h
        injection h with h'
        subst h'
        exact execIns_err hex
      | ok p =>
        obtain ⟨tbls2, pid'⟩ := p
        rw [hex] at h
        exact ih tbls2 e h

theorem insertChildren_err (doc : Val) (pid : Nat) :
    ∀ (cts : List ChildTable) (tbls : SQLTables) (e : PyErr),
      insertChildren tbls doc pid cts = .error e → isStorageError e = false := by
  intro cts
  induction cts with
  | nil => intro tbls e h; cases h
  | cons ct rest ih =>
    intro tbls e h
    unfold insertChildren at h
    cases hlk : lookupPy tbls ct.name with
    | none =>
      rw [hlk] at h
      injection h with h'
      subst h'
      rfl
    | some t =>
      rw [hlk] at h
      dsimp only at h
      cases hgp : get_by_path doc ct.root_path with
      | none => rw [hgp] at h; exact ih tbls e h
      | some v =>
        rw [hgp] at h
        cases v with
        | arr items =>
          dsimp only at h
          cases hit : insertItems tbls ct.name pid items with
          | error e' =>
            rw [hit] at h
            injection h with h'
            subst h'
            exact insertItems_err ct.name pid items tbls e' hit
          | ok tbls2 =>
            rw [hit] at h
            exact ih tbls2 e h
        | null => exact ih tbls e h
        | bool b => exact ih tbls e h
        | int n => exact ih tbls e h
        | float f => exact ih tbls e h
        | str s => exact ih tbls e h
        | obj fs => exact ih tbls e h

theorem insertDoc_err {tbls : SQLTables} {model : RelModel} {doc : Val} {e : PyErr}
    (h : insertDoc tbls model doc = .error e) : isStorageError e = false := by
  unfold insertDoc at h
  cases hbr : buildTopRow model doc with
  | error e' =>
    rw [hbr] at h
    injection h with h'
    subst h'
    rw [buildTopRow_err hbr]
    rfl
  | ok row =>
    rw [hbr] at h
    dsimp only at h
    cases hex : execIns tbls model.top_table row with
    | error e' =>
      rw [hex] at h
      injection h with h'
      subst h'
      exact execIns_err hex
    | ok p =>
      obtain ⟨tbls1, pid⟩ := p
      rw [hex] at h
      exact insertChildren_err doc pid model.child_tables tbls1 e h

theorem insertDocs_err (model : RelModel) :
    ∀ (docs : List Val) (tbls : SQLTables) (e : PyErr),
      insertDocs tbls model docs = .error e → isStorageError e = false := by
  intro docs
  induction docs with
  | nil => intro tbls e h; cases h
  | cons d rest ih =>
    intro tbls e h
    unfold insertDocs at h
    cases hd : insertDoc tbls model d with
    | error e' =>
      rw [hd] at h
      injection h with h'
      subst h'
      exact insertDoc_err hd
    | ok tbls1 =>
      rw [hd] at h
      exact ih tbls1 e h

/-- Claim C3 (amended): `SQLStore.insert` is all-or-nothing — on any failure
the rollback leaves the tables exactly as before the call — but the
error reported to the caller is the underlying exception re-raised
unchanged; it is never a StorageError naming the failing document's
index (no such error is constructed anywhere in the store). -/
theorem sql_insert_rollback (tbls : SQLTables) (model : RelModel) (docs : List Val) (e : PyErr)
    (h : (SQLStore.insert tbls model docs).2 = some e) :
    (SQLStore.insert tbls model docs).1 = tbls ∧ isStorageError e = false := by
  rcases hcase : SQLStore.insert tbls model docs with ⟨st', err⟩
  dsimp only
  rw [hcase] at h
  dsimp only at h
  subst h
  unfold SQLStore.insert at hcase
  cases hlk : lookupPy tbls model.top_table with
  | none =>
    rw [hlk] at hcase
    dsimp only at hcase
    obtain ⟨h1, h2⟩ := Prod.mk.inj hcase
    injection h2 with h3
    refine ⟨h1.symm, ?_⟩
    rw [← h3]
    rfl
  | some t =>
    rw [hlk] at hcase
    dsimp only at hcase
    cases hins : insertDocs tbls model docs with
    | ok tbls2 =>
      rw [hins] at hcase
      dsimp only at hcase
      obtain ⟨-, h2⟩ := Prod.mk.inj hcase
      exact Option.noConfusion h2
    | error e2 =>
      rw [hins] at hcase
      dsimp only at hcase
      obtain ⟨h1, h2⟩ := Prod.mk.inj hcase
      injection h2 with h3
      subst h3
      exact ⟨h1.symm, insertDocs_err model docs tbls e2 hins⟩

/-- Witness for C3's theorem: binding a list value to the non-JSON
column `a` fails with `InterfaceError`; the store is left unchanged and
no StorageError is produced. -/
theorem sql_insert_rollback_witness :
    (SQLStore.insert ((ensure_schema [] ⟨"items", ["a"], []⟩ [("a", Val.int 1)]).toOption.getD [])
        ⟨"items", ["a"], []⟩ [Val.obj [("a", Val.arr [])]]).1
      = (ensure_schema [] ⟨"items", ["a"], []⟩ [("a", Val.int 1)]).toOption.getD [] ∧
    isStorageError .interfaceError = false :=
  sql_insert_rollback _ _ _ .interfaceError rfl

/-! ### Claim C6 — raw-payload round-trip -/

/-- An element none of whose field keys maps to the reserved `_raw`
column after separator replacement; a field key that does collide
overwrites the raw-element column of its child row. -/
def rawSafeItem : Val → Prop
  | .obj ifs => ∀ kv ∈ ifs, strReplace "." "_" kv.1 ≠ "_raw"
  | _ => True

theorem buildTopRow_raw {model : RelModel} {doc : Val} {row : PyDict Val}
    (h : buildTopRow model doc = .ok row) : lookupPy row "_raw" = some doc := by
  unfold buildTopRow at h
  cases hbc : buildTopRowCols doc model.top_cols [] with
  | error e => rw [hbc] at h; cases h
  | ok row0 =>
    rw [hbc] at h
    injection h with h'
    subst h'
    exact lookup_upd_self _ _ _

theorem childRow_raw {pid : Nat} {item : Val} {crow : PyDict Val}
    (h : childRow pid item = .ok crow) (hs : rawSafeItem item) :
    lookupPy crow "_raw" = some item := by
  cases item with
  | obj ifs =>
    injection h with h'
    subst h'
    rw [lookup_foldl_upd (strReplace "." "_") "_raw" ifs _ hs]
    exact lookup_upd_self _ _ _
  | null => cases h
  | bool b => cases h
  | int n => cases h
  | float f => cases h
  | str s => cases h
  | arr l => cases h

theorem execIns_raws {tbls tbls' : SQLTables} {tname : String} {row : PyDict Val} {pid : Nat}
    (h : execIns tbls tname row = .ok (tbls', pid)) :
    ∀ n, rawsOf tbls' n = rawsOf tbls n
      ++ (if n = tname then [lookupPy row "_raw"] else []) := by
  unfold execIns at h
  cases hlk : lookupPy tbls tname with
  | none => rw [hlk] at h; cases h
  | some t =>
    rw [hlk] at h
    dsimp only at h
    by_cases h1 : (row.all fun kv => hasKey t.cols kv.1) = true
    · rw [if_pos h1] at h
      by_cases h2 : (row.all fun kv => bindOK (getD t.cols kv.1 .text) kv.2) = true
      · rw [if_pos h2] at h
        injection h with h'
        obtain ⟨h3, h4⟩ := Prod.mk.inj h'
        subst h3
        subst h4
        intro n
        by_cases hn : n = tname
        · subst hn
          unfold rawsOf rowsOf
          rw [lookup_upd_self, hlk]
          simp [lookupPy]
        · unfold rawsOf rowsOf
          rw [lookup_upd_ne _ _ _ _ hn]
          simp [hn]
      · rw [if_neg h2] at h; cases h
    · rw [if_neg h1] at h; cases h

theorem insertItems_raws (cname : String) (pid : Nat) :
    ∀ (items : List Val) (tbls tbls' : SQLTables),
      insertItems tbls cname pid items = .ok tbls' →
      (∀ it ∈ items, rawSafeItem it) →
      ∀ n, rawsOf tbls' n = rawsOf tbls n
        ++ (if n = cname then items.map some else []) := by
  intro items
  induction items with
  | nil =>
    intro tbls tbls' h _ n
    injection h with h'
    subst h'
    simp
  | cons item rest ih =>
    intro tbls tbls' h hs n
    unfold insertItems at h
    cases hcr : childRow pid item with
    | error e => rw [hcr] at h; cases h
    | ok crow =>
      rw [hcr] at h
      dsimp only at h
      cases hex : execIns tbls cname crow with
      | error e => rw [hex] at h; cases h
      | ok p =>
        obtain ⟨tbls2, pid2⟩ := p
        rw [hex] at h
        have hrec := ih tbls2 tbls' h (fun it hit => hs it (List.mem_cons_of_mem _ hit)) n
        rw [hrec, execIns_raws hex n]
        have hraw : lookupPy crow "_raw" = some item :=
          childRow_raw hcr (hs item (List.mem_cons_self _ _))
        by_cases hn : n = cname
        · subst hn; simp [hraw]
        · simp [hn]

theorem insertChildren_raws (doc : Val) (pid : Nat) :
    ∀ (cts : List ChildTable) (tbls tbls' : SQLTables),
      insertChildren tbls doc pid cts = .ok tbls' →
      (∀ ct ∈ cts, ∀ it ∈ childElems doc ct.root_path, rawSafeItem it) →
      ∀ n, rawsOf tbls' n = rawsOf tbls n
        ++ (cts.filter (fun ct => ct.name == n)).flatMap
            (fun ct => (childElems doc ct.root_path).map some) := by
  intro cts
  induction cts with
  | nil =>
    intro tbls tbls' h _ n
    injection h with h'
    subst h'
    simp
  | cons ct rest ih =>
    intro tbls tbls' h hs n
    unfold insertChildren at h
    cases hlk : lookupPy tbls ct.name with
    | none => rw [hlk] at h; cases h
    | some t =>
      rw [hlk] at h
      dsimp only at h
      cases hgp : get_by_path doc ct.root_path with
      | none =>
        rw [hgp] at h
        have hrec := ih tbls tbls' h (fun c hc => hs c (List.mem_cons_of_mem _ hc)) n
        rw [hrec]
        have hce : childElems doc ct.root_path = [] := by unfold childElems; rw [hgp]
        cases hn : (ct.name == n) <;> simp [List.filter_cons, hn, hce]
      | some v =>
        rw [hgp] at h
        cases v with
        | arr items =>
          dsimp only at h
          cases hit : insertItems tbls ct.name pid items with
          | error e => rw [hit] at h; cases h
          | ok tbls2 =>
            rw [hit] at h
            have hitems : ∀ it ∈ items, rawSafeItem it := by
              have hthis := hs ct (List.mem_cons_self _ _)
              unfold childElems at hthis
              rw [hgp] at hthis
              exact hthis
            have h1 := insertItems_raws ct.name pid items tbls tbls2 hit hitems n
            have hrec := ih tbls2 tbls' h (fun c hc => hs c (List.mem_cons_of_mem _ hc)) n
            rw [hrec, h1]
            have hce : childElems doc ct.root_path = items := by unfold childElems; rw [hgp]
            cases hn : (ct.name == n) with
            | true =>
              obtain rfl := beq_iff_eq.mp hn
              simp [List.filter_cons, hce]
            | false =>
              have hne : n ≠ ct.name := Ne.symm (beq_eq_false_iff_ne.mp hn)
              simp [List.filter_cons, hn, hne]
        | null =>
          have hrec := ih tbls tbls' h (fun c hc => hs c (List.mem_cons_of_mem _ hc)) n
          rw [hrec]
          have hce : childElems doc ct.root_path = [] := by unfold childElems; rw [hgp]
          cases hn : (ct.name == n) <;> simp [List.filter_cons, hn, hce]
        | bool b =>
          have hrec := ih tbls tbls' h (fun c hc => hs c (List.mem_cons_of_mem _ hc)) n
          rw [hrec]
          have hce : childElems doc ct.root_path = [] := by unfold childElems; rw [hgp]
          cases hn : (ct.name == n) <;> simp [List.filter_cons, hn, hce]
        | int m =>
          have hrec := ih tbls tbls' h (fun c hc => hs c (List.mem_cons_of_mem _ hc)) n
          rw [hrec]
          have hce : childElems doc ct.root_path = [] := by unfold childElems; rw [hgp]
          cases hn : (ct.name == n) <;> simp [List.filter_cons, hn, hce]
        | float f =>
          have hrec := ih tbls tbls' h (fun c hc => hs c (List.mem_cons_of_mem _ hc)) n
          rw [hrec]
          have hce : childElems doc ct.root_path = [] := by unfold childElems; rw [hgp]
          cases hn : (ct.name == n) <;> simp [List.filter_cons, hn, hce]
        | str s =>
          have hrec := ih tbls tbls' h (fun c hc => hs c (List.mem_cons_of_mem _ hc)) n
          rw [hrec]
          have hce : childElems doc ct.root_path = [] := by unfold childElems; rw [hgp]
          cases hn : (ct.name == n) <;> simp [List.filter_cons, hn, hce]
        | obj fs =>
          have hrec := ih tbls tbls' h (fun c hc => hs c (List.mem_cons_of_mem _ hc)) n
          rw [hrec]
          have hce : childElems doc ct.root_path = [] := by unfold childElems; rw [hgp]
          cases hn : (ct.name == n) <;> simp [List.filter_cons, hn, hce]

theorem insertDoc_raws {tbls tbls' : SQLTables} {model : RelModel} {doc : Val}
    (h : insertDoc tbls model doc = .ok tbls')
    (hs : ∀ ct ∈ model.child_tables, ∀ it ∈ childElems doc ct.root_path, rawSafeItem it) :
    ∀ n, rawsOf tbls' n = rawsOf tbls n
      ++ ((if n = model.top_table then [some doc] else [])
        ++ (model.child_tables.filter (fun ct => ct.name == n)).flatMap
            (fun ct => (childElems doc ct.root_path).map some)) := by
  unfold insertDoc at h
  cases hbr : buildTopRow model doc with
  | error e => rw [hbr] at h; cases h
  | ok row =>
    rw [hbr] at h
    dsimp only at h
    cases hex : execIns tbls model.top_table row with
    | error e => rw [hex] at h; cases h
    | ok p =>
      obtain ⟨tbls1, pid⟩ := p
      rw [hex] at h
      intro n
      rw [insertChildren_raws doc pid model.child_tables tbls1 tbls' h hs n,
        execIns_raws hex n, buildTopRow_raw hbr]
      simp [List.append_assoc]

theorem insertDocs_raws (model : RelModel) :
    ∀ (docs : List Val) (tbls tbls' : SQLTables),
      insertDocs tbls model docs = .ok tbls' →
      (∀ d ∈ docs, ∀ ct ∈ model.child_tables, ∀ it ∈ childElems d ct.root_path,
        rawSafeItem it) →
      ∀ n, rawsOf tbls' n = rawsOf tbls n
        ++ docs.flatMap (fun d =>
          (if n = model.top_table then [some d] else [])
          ++ (model.child_tables.filter (fun ct => ct.name == n)).flatMap
              (fun ct => (childElems d ct.root_path).map some)) := by
  intro docs
  induction docs with
  | nil =>
    intro tbls tbls' h _ n
    injection h with h'
    subst h'
    simp
  | cons d rest ih =>
    intro tbls tbls' h hs n
    unfold insertDocs at h
    cases hd : insertDoc tbls model d with
    | error e => rw [hd] at h; cases h
    | ok tbls1 =>
      rw [hd] at h
      have h1 := insertDoc_raws hd (hs d (List.mem_cons_self _ _)) n
      have hrec := ih tbls1 tbls' h (fun x hx => hs x (List.mem_cons_of_mem _ hx)) n
      rw [hrec, h1]
      simp [List.append_assoc]

theorem filter_name_nil (n : String) (cts : List ChildTable) (h : ∀ c ∈ cts, c.name ≠ n) :
    cts.filter (fun c => c.name == n) = [] := by
  rw [List.filter_eq_nil_iff]
  intro c hc
  simpa using h c hc

theorem filter_name_single (ct : ChildTable) :
    ∀ (cts : List ChildTable), (cts.map (fun c => c.name)).Nodup → ct ∈ cts →
      cts.filter (fun c => c.name == ct.name) = [ct] := by
  intro cts
  induction cts with
  | nil => intro _ hmem; cases hmem
  | cons c rest ih =>
    intro hnd hmem
    rw [List.map_cons, List.nodup_cons] at hnd
    rcases List.mem_cons.mp hmem with rfl | hmem'
    · rw [List.filter_cons_of_pos (by simp),
        filter_name_nil ct.name rest
          (fun c' hc' hEq => hnd.1 (hEq ▸ List.mem_map_of_mem _ hc'))]
    · have hne : c.name ≠ ct.name := fun hEq => hnd.1 (hEq ▸ List.mem_map_of_mem _ hmem')
      rw [List.filter_cons_of_neg (by simp [hne])]
      exact ih hnd.2 hmem'

theorem flatMap_singleton_map (l : List Val) :
    (l.flatMap fun d => ([some d] : List (Option Val))) = l.map some := by
  induction l with
  | nil => rfl
  | cons d rest ih => simp [ih]

/-- Claim C6 (amended): when `ensure_schema` succeeds (it raises at `Table`
construction when a column name repeats, e.g. a proposed top column
named `id`) and `insert` then succeeds, the `_raw` column of the newly
inserted top rows reproduces the documents exactly and in order, and
the `_raw` column of each child table's new rows lists the elements of
the documents' nested arrays in order — provided the child-table names
are distinct from each other and from the top table, and no array
element carries a field key that maps to the reserved column name
`_raw` (such a field overwrites the raw column; see the
counterexample). -/
theorem raw_round_trip (tbls0 : SQLTables) (model : RelModel) (sample : List (String × Val))
    (docs : List Val) (tbls1 tbls' : SQLTables)
    (hes : ensure_schema tbls0 model sample = .ok tbls1)
    (hnodup : (model.top_table :: model.child_tables.map (fun ct => ct.name)).Nodup)
    (hsafe : ∀ d ∈ docs, ∀ ct ∈ model.child_tables, ∀ it ∈ childElems d ct.root_path,
      rawSafeItem it)
    (hins : SQLStore.insert tbls1 model docs = (tbls', none)) :
    rawsOf tbls' model.top_table
      = rawsOf tbls1 model.top_table ++ docs.map some ∧
    ∀ ct ∈ model.child_tables,
      rawsOf tbls' ct.name = rawsOf tbls1 ct.name
        ++ docs.flatMap (fun d => (childElems d ct.root_path).map some) := by
  clear hes
  rw [List.nodup_cons] at hnodup
  have hdocs : insertDocs tbls1 model docs = .ok tbls' := by
    unfold SQLStore.insert at hins
    cases hlk : lookupPy tbls1 model.top_table with
    | none =>
      rw [hlk] at hins
      dsimp only at hins
      obtain ⟨-, h2⟩ := Prod.mk.inj hins
      exact Option.noConfusion h2
    | some t =>
      rw [hlk] at hins
      dsimp only at hins
      cases hi : insertDocs tbls1 model docs with
      | ok t2 =>
        rw [hi] at hins
        dsimp only at hins
        obtain ⟨h1, -⟩ := Prod.mk.inj hins
        rw [h1]
      | error e =>
        rw [hi] at hins
        dsimp only at hins
        obtain ⟨-, h2⟩ := Prod.mk.inj hins
        exact Option.noConfusion h2
  constructor
  · rw [insertDocs_raws model docs _ tbls' hdocs hsafe model.top_table]
    congr 1
    have hfil : model.child_tables.filter (fun c => c.name == model.top_table) = [] :=
      filter_name_nil _ _ (fun c hc hEq => hnodup.1 (hEq ▸ List.mem_map_of_mem _ hc))
    simp only [hfil, List.flatMap_nil, List.append_nil, if_pos rfl]
    exact flatMap_singleton_map docs
  · intro ct hct
    rw [insertDocs_raws model docs _ tbls' hdocs hsafe ct.name]
    congr 1
    have hneq : ct.name ≠ model.top_table := fun hEq =>
      hnodup.1 (hEq ▸ List.mem_map_of_mem _ hct)
    have hfil : model.child_tables.filter (fun c => c.name == ct.name) = [ct] :=
      filter_name_single ct model.child_tables hnodup.2 hct
    simp only [hfil, if_neg hneq, List.nil_append, List.flatMap_cons, List.flatMap_nil,
      List.append_nil]

/-- A well-behaved model for the round-trip witness: no proposed top
column collides with `id` or `_raw`, so schema construction
succeeds. -/
def wModel : RelModel := ⟨"items", ["name"], [⟨"orders", "orders"⟩]⟩

/-- Sample/inserted document for the round-trip witness. -/
def wSample : List (String × Val) :=
  [("name", .str "Alice"), ("orders", .arr [.obj [("sku", .str "A1")]])]

/-- The witness document (equal to the sample). -/
def wDoc : Val := .obj wSample

/-- The tables the witness schema construction produces. -/
def wTbls : SQLTables := (ensure_schema [] wModel wSample).toOption.getD []

/-- Witness for C6's amended theorem at a concrete well-behaved
model. -/
theorem raw_round_trip_witness :
    ensure_schema [] wModel wSample = .ok wTbls ∧
    rawsOf (SQLStore.insert wTbls wModel [wDoc]).1 "items"
      = rawsOf wTbls "items" ++ [wDoc].map some ∧
    rawsOf (SQLStore.insert wTbls wModel [wDoc]).1 "orders"
      = rawsOf wTbls "orders"
        ++ [wDoc].flatMap (fun d => (childElems d "orders").map some) := by
  have hsafe : ∀ d ∈ [wDoc], ∀ ct ∈ wModel.child_tables,
      ∀ it ∈ childElems d ct.root_path, rawSafeItem it := by
    intro d hd ct hct it hit
    rw [List.mem_singleton] at hd
    subst hd
    have hct' : ct = ⟨"orders", "orders"⟩ := by
      simpa [wModel] using hct
    subst hct'
    have hce : childElems wDoc "orders" = [Val.obj [("sku", Val.str "A1")]] := rfl
    rw [hce, List.mem_singleton] at hit
    subst hit
    intro kv hkv
    rw [List.mem_singleton] at hkv
    subst hkv
    decide
  have happ := raw_round_trip [] wModel wSample [wDoc] wTbls
    (SQLStore.insert wTbls wModel [wDoc]).1
    (by rfl) (by decide) hsafe (by rfl)
  exact ⟨rfl, happ.1, happ.2 ⟨"orders", "orders"⟩ (by simp [wModel])⟩

/-- Model of the C6 counterexample. -/
def cModel : RelModel := ⟨"items", [], [⟨"orders", "orders"⟩]⟩

/-- Sample document of the C6 counterexample (its array element has no
`_raw` field, so the child table gets columns `a` and `_raw`). -/
def cSample : List (String × Val) := [("orders", .arr [.obj [("a", .int 1)]])]

/-- Inserted document of the C6 counterexample: its array element
carries a field literally named `_raw`. -/
def cDoc : Val := .obj [("orders", .arr [.obj [("a", .int 1), ("_raw", .int 7)]])]

/-- The tables the counterexample schema construction produces. -/
def cTbls : SQLTables := (ensure_schema [] cModel cSample).toOption.getD []

/-- Claim C6 (counterexample): inserting a document whose nested-array
element has a field named `_raw` succeeds, but the stored child row's
`_raw` column is the field's value (`7`), not the element itself — the
element's field overwrites the raw column, so the raw round-trip fails
for that child row. -/
theorem child_raw_overwritten :
    ensure_schema [] cModel cSample = .ok cTbls ∧
    (SQLStore.insert cTbls cModel [cDoc]).2 = none ∧
    rawsOf (SQLStore.insert cTbls cModel [cDoc]).1 "orders"
      = [some (Val.int 7)] ∧
    childElems cDoc "orders" = [Val.obj [("a", Val.int 1), ("_raw", Val.int 7)]] ∧
    some (Val.int 7) ≠ some (Val.obj [("a", Val.int 1), ("_raw", Val.int 7)]) := by
  refine ⟨rfl, rfl, rfl, rfl, ?_⟩
  intro h
  injection h with h'
  exact Val.noConfusion h'

/-! ### Claim C4 — document-store insert semantics -/

/-- The scalar-index rows produced for one document (id `i`): one row
per top-level scalar field, in field order; none for a non-dict. -/
def docIndexRows (i : Nat) (d : Val) : List (Nat × String × String) :=
  match d with
  | .obj fs =>
    (fs.filter (fun kv => isIndexedScalar kv.2)).map (fun kv => (i, kv.1, pyStrScalar kv.2))
  | _ => []

theorem indexDoc_spec (i : Nat) :
    ∀ (fs : List (String × Val)) (st : DocState),
      indexDoc st i fs = ⟨st.nextId, st.documents,
        st.key_index ++ (fs.filter (fun kv => isIndexedScalar kv.2)).map
          (fun kv => (i, kv.1, pyStrScalar kv.2))⟩ := by
  intro fs
  induction fs with
  | nil => intro st; simp [indexDoc]
  | cons kv rest ih =>
    intro st
    unfold indexDoc
    rw [List.foldl_cons]
    by_cases hkv : isIndexedScalar kv.2 = true
    · rw [if_pos hkv]
      have := ih ⟨st.nextId, st.documents, st.key_index ++ [(i, kv.1, pyStrScalar kv.2)]⟩
      unfold indexDoc at this
      rw [this]
      simp [List.filter_cons, hkv]
    · rw [if_neg hkv]
      have := ih st
      unfold indexDoc at this
      rw [this]
      simp [List.filter_cons, hkv]

theorem docInsertLoop_ok (ns : String) :
    ∀ (docs : List Val) (st w : DocState),
      docInsertLoop st ns docs = (w, none) →
      w.documents = st.documents
          ++ (List.enumFrom st.nextId docs).map (fun p => (p.1, ns, p.2)) ∧
      w.key_index = st.key_index
          ++ (List.enumFrom st.nextId docs).flatMap (fun p => docIndexRows p.1 p.2) := by
  intro docs
  induction docs with
  | nil =>
    intro st w h
    obtain ⟨rfl, -⟩ := Prod.mk.inj h
    simp [List.enumFrom]
  | cons d rest ih =>
    intro st w h
    unfold docInsertLoop at h
    cases d with
    | obj fs =>
      dsimp only at h
      rw [indexDoc_spec] at h
      obtain ⟨h1, h2⟩ := ih _ _ h
      dsimp only at h1 h2
      refine ⟨?_, ?_⟩
      · rw [h1]
        simp [List.enumFrom]
      · rw [h2]
        simp [List.enumFrom, docIndexRows]
    | null => dsimp only at h; obtain ⟨-, h2⟩ := Prod.mk.inj h; exact Option.noConfusion h2
    | bool b => dsimp only at h; obtain ⟨-, h2⟩ := Prod.mk.inj h; exact Option.noConfusion h2
    | int n => dsimp only at h; obtain ⟨-, h2⟩ := Prod.mk.inj h; exact Option.noConfusion h2
    | float f => dsimp only at h; obtain ⟨-, h2⟩ := Prod.mk.inj h; exact Option.noConfusion h2
    | str s => dsimp only at h; obtain ⟨-, h2⟩ := Prod.mk.inj h; exact Option.noConfusion h2
    | arr l => dsimp only at h; obtain ⟨-, h2⟩ := Prod.mk.inj h; exact Option.noConfusion h2

theorem docInsertLoop_err (ns : String) :
    ∀ (docs : List Val) (st w : DocState) (e : PyErr),
      docInsertLoop st ns docs = (w, some e) → e = .attributeError := by
  intro docs
  induction docs with
  | nil =>
    intro st w e h
    obtain ⟨-, h2⟩ := Prod.mk.inj h
    exact Option.noConfusion h2
  | cons d rest ih =>
    intro st w e h
    unfold docInsertLoop at h
    cases d with
    | obj fs => exact ih _ _ _ h
    | null => dsimp only at h; obtain ⟨-, h2⟩ := Prod.mk.inj h; injection h2 with h3; exact h3.symm
    | bool b => dsimp only at h; obtain ⟨-, h2⟩ := Prod.mk.inj h; injection h2 with h3; exact h3.symm
    | int n => dsimp only at h; obtain ⟨-, h2⟩ := Prod.mk.inj h; injection h2 with h3; exact h3.symm
    | float f => dsimp only at h; obtain ⟨-, h2⟩ := Prod.mk.inj h; injection h2 with h3; exact h3.symm
    | str s => dsimp only at h; obtain ⟨-, h2⟩ := Prod.mk.inj h; injection h2 with h3; exact h3.symm
    | arr l => dsimp only at h; obtain ⟨-, h2⟩ := Prod.mk.inj h; injection h2 with h3; exact h3.symm

/-- Claim C4 (amended): `DocStore.insert` commits the whole call at once.  On
success every document row and its scalar-index rows are durably
committed together; on a failure (which can only be the
`AttributeError` of a non-dict document) the exception propagates with
no commit, so the durable state is exactly the state before the call —
earlier documents of the call are not durably stored, and later
documents are never inserted. -/
theorem doc_insert_batch_commit (db : DocState) (docs : List Val) (ns : String) :
    ((DocStore.insert db docs ns).err = none →
      (DocStore.insert db docs ns).committed.documents
        = db.documents ++ (List.enumFrom db.nextId docs).map (fun p => (p.1, ns, p.2)) ∧
      (DocStore.insert db docs ns).committed.key_index
        = db.key_index ++ (List.enumFrom db.nextId docs).flatMap (fun p => docIndexRows p.1 p.2) ∧
      (DocStore.insert db docs ns).committed = (DocStore.insert db docs ns).txn) ∧
    (∀ e, (DocStore.insert db docs ns).err = some e →
      (DocStore.insert db docs ns).committed = db ∧ e = .attributeError) := by
  unfold DocStore.insert
  rcases hloop : docInsertLoop db ns docs with ⟨w, err0⟩
  cases err0 with
  | none =>
    dsimp only
    obtain ⟨h1, h2⟩ := docInsertLoop_ok ns docs db w hloop
    exact ⟨fun _ => ⟨h1, h2, rfl⟩, fun e he => Option.noConfusion he⟩
  | some e0 =>
    dsimp only
    refine ⟨fun hcontr => Option.noConfusion hcontr, fun e he => ?_⟩
    injection he with h3
    subst h3
    exact ⟨rfl, docInsertLoop_err ns docs db w e0 hloop⟩

/-- First dict document of the C4 scenario. -/
def cdDoc1 : Val := .obj [("event", .str "click")]

/-- Second dict document of the C4 scenario. -/
def cdDoc2 : Val := .obj [("event", .str "view")]

/-- Claim C4 (counterexample): on a batch whose second element is not a dict,
`DocStore.insert` fails after executing two document rows — the durable
`documents` table is left empty (the earlier document is *not* durably
stored, contradicting the claim), and the remaining document was never
inserted (the call aborted, contradicting the claim), the pending rows
remaining only in the uncommitted transaction. -/
theorem doc_insert_not_durable :
    (DocStore.insert ⟨1, [], []⟩ [cdDoc1, Val.int 5, cdDoc2] "default").err
      = some .attributeError ∧
    (DocStore.insert ⟨1, [], []⟩ [cdDoc1, Val.int 5, cdDoc2] "default").committed.documents
      = [] ∧
    (DocStore.insert ⟨1, [], []⟩ [cdDoc1, Val.int 5, cdDoc2] "default").txn.documents.map
        (fun r => r.2.2) = [cdDoc1, Val.int 5] :=
  ⟨rfl, rfl, rfl⟩

/-- Witness for C4's amended theorem: a successful call commits the
document row, and a failing call leaves the durable state untouched. -/
theorem doc_insert_batch_commit_witness :
    (DocStore.insert ⟨1, [], []⟩ [cdDoc1] "default").committed.documents
      = [] ++ (List.enumFrom 1 [cdDoc1]).map (fun p => (p.1, "default", p.2)) ∧
    (DocStore.insert ⟨1, [], []⟩ [cdDoc1, Val.int 5] "default").committed = ⟨1, [], []⟩ :=
  ⟨((doc_insert_batch_commit ⟨1, [], []⟩ [cdDoc1] "default").1 rfl).1,
   ((doc_insert_batch_commit ⟨1, [], []⟩ [cdDoc1, Val.int 5] "default").2
      .attributeError rfl).1⟩

/-- Claim C3 (counterexample): a failing relational insert reports the
underlying `InterfaceError`, not a StorageError naming the failing
document's index as the claim states. -/
theorem sql_insert_error_untyped :
    (SQLStore.insert ((ensure_schema [] ⟨"items", ["a"], []⟩ [("a", Val.int 1)]).toOption.getD [])
        ⟨"items", ["a"], []⟩ [Val.obj [("a", Val.arr [])]]).2 = some .interfaceError ∧
    isStorageError .interfaceError = false :=
  ⟨rfl, rfl⟩
